import Mathlib

/-!
Verification of the condition-classification core of `check-conditions`.

The Go sources are embedded shallowly:

* the wildcard rule engine (`compilePattern`, `Config.AddRegex`,
  `Config.shouldSkip`) from `pkg/checkconditions/config.go`;
* the legacy classifier (`conditionToSkip`, `conditionTypeHasPositiveMeaning`,
  `conditionTypeHasNegativeMeaning`, `conditionDone`,
  `conditionLinesToIgnoreRegexs`, `handleCondition`) and the scan / poll
  machinery (`containsSlash`, `handleResourceType`, `Counter.add`,
  `printConditions`, `RunAll` / `RunAllOnce`) from
  `pkg/checkconditions/checkconditions.go`.

Strings are handled as `List Char` (`String.data`) so that every matcher is an
executable, decidable function.
-/

namespace CheckConditions

/-! ## Basic list-of-char utilities

These model the Go standard-library string helpers used by the sources
(`strings.HasSuffix`, `strings.HasPrefix`, `strings.Contains` via
`regexp.MatchString` on literal patterns, `strings.TrimSpace`,
`strings.Split(s, sep)[0]`). -/

/-- Model of `strings.HasPrefix` on character lists. -/
def startsWithL : List Char → List Char → Bool
  | [], _ => true
  | _ :: _, [] => false
  | c :: p, d :: s => c == d && startsWithL p s

/-- Model of `strings.HasSuffix` on character lists. -/
def endsWithL (p s : List Char) : Bool :=
  startsWithL p.reverse s.reverse

/-- Does `p` occur as a contiguous substring of `s`?  Model of the substring
search performed by `regexp.MatchString` for a pattern without
metacharacters (an unanchored regex of literals matches a string iff the
literal text occurs somewhere inside it). -/
def hasSubstrL (p s : List Char) : Bool :=
  match s with
  | [] => startsWithL p []
  | _ :: t => startsWithL p s || hasSubstrL p t

/-- Characters trimmed by Go's `strings.TrimSpace` (`unicode.IsSpace` over
Latin-1: space, tab, newline, vertical tab, form feed, carriage return,
next line U+0085 and no-break space U+00A0). -/
def isGoSpace (c : Char) : Bool :=
  c == ' ' || c == '\t' || c == '\n' || c == '\x0b' || c == '\x0c' ||
    c == '\r' || c == '\u0085' || c == ' '

/-- Model of `strings.TrimSpace` on character lists. -/
def trimSpaceL (s : List Char) : List Char :=
  ((s.dropWhile isGoSpace).reverse.dropWhile isGoSpace).reverse

/-- Model of `strings.Split(s, "@")[0]`: the prefix of `s` before the first
`@` (the whole of `s` when no `@` occurs). -/
def takeBeforeAtL (s : List Char) : List Char :=
  s.takeWhile (fun c => c != '@')

/-! ## The wildcard pattern engine (`compilePattern`)

`compilePattern` (config.go) quotes every regex metacharacter of the rule
field with `regexp.QuoteMeta`, turns every (now escaped) `*` into `.*` and
anchors the result with `^...$`.  Consequently the compiled regex is exactly
the anchored concatenation, over the characters of the original field, of a
literal character for every character other than `*` and of `.*` for every
`*`.  `Tok`/`compiledToks` embed that compiled form and `tmatch` embeds the
(backtracking-complete) matching of such a regex against a whole string.
The pattern is compiled without the `s` flag, so the `.` of the generated
`.*` matches any character EXCEPT a newline: the text a `*` stands for can
never cross a line break. -/

/-- One token of a compiled rule-field pattern: a literal character or the
`.*` produced from a `*` wildcard. -/
inductive Tok where
  | lit (c : Char)
  | star
  deriving DecidableEq, Repr

/-- Model of `compilePattern`: the anchored token sequence compiled from a
rule field (every character other than `*` a literal, every `*` a `.*`). -/
def compiledToks : List Char → List Tok
  | [] => []
  | c :: p => (if c == '*' then Tok.star else Tok.lit c) :: compiledToks p

/-- Worker for `tmatch`: the same backtracking search with an explicit
recursion bound, so that the function is structural and computes inside the
kernel.  The bound strictly exceeds `ts.length + v.length`, which every
recursive call preserves, so the `0` branch is unreachable from `tmatch`. -/
def tmatchAux : Nat → List Tok → List Char → Bool
  | 0, _, _ => false
  | _ + 1, [], [] => true
  | _ + 1, [], _ :: _ => false
  | _ + 1, Tok.lit _ :: _, [] => false
  | fuel + 1, Tok.lit c :: ts, d :: v => c == d && tmatchAux fuel ts v
  | fuel + 1, Tok.star :: ts, [] => tmatchAux fuel ts []
  | fuel + 1, Tok.star :: ts, d :: v =>
      tmatchAux fuel ts (d :: v) || (d != '\n' && tmatchAux fuel (Tok.star :: ts) v)

/-- Full-string matching of a compiled token sequence, mirroring what the
anchored regex produced by `compilePattern` accepts. -/
def tmatch (ts : List Tok) (v : List Char) : Bool :=
  tmatchAux (ts.length + v.length + 1) ts v

/-- Any sufficiently large recursion bound yields the same answer. -/
lemma tmatchAux_congr :
    ∀ f1 f2 : Nat, ∀ ts : List Tok, ∀ v : List Char,
      ts.length + v.length < f1 → ts.length + v.length < f2 →
      tmatchAux f1 ts v = tmatchAux f2 ts v := by
  intro f1
  induction f1 with
  | zero => intro f2 ts v h1 _; omega
  | succ f1' ih =>
      intro f2 ts v h1 h2
      cases f2 with
      | zero => omega
      | succ f2' =>
          cases ts with
          | nil =>
              cases v with
              | nil => rfl
              | cons d v' => rfl
          | cons t ts' =>
              cases t with
              | lit c =>
                  cases v with
                  | nil => rfl
                  | cons d v' =>
                      show (c == d && tmatchAux f1' ts' v') = (c == d && tmatchAux f2' ts' v')
                      rw [ih f2' ts' v'
                        (by simp only [List.length_cons, List.length_nil] at *; omega)
                        (by simp only [List.length_cons, List.length_nil] at *; omega)]
              | star =>
                  cases v with
                  | nil =>
                      show tmatchAux f1' ts' [] = tmatchAux f2' ts' []
                      exact ih f2' ts' []
                        (by simp only [List.length_cons, List.length_nil] at *; omega)
                        (by simp only [List.length_cons, List.length_nil] at *; omega)
                  | cons d v' =>
                      show (tmatchAux f1' ts' (d :: v') ||
                          (d != '\n' && tmatchAux f1' (Tok.star :: ts') v')) =
                        (tmatchAux f2' ts' (d :: v') ||
                          (d != '\n' && tmatchAux f2' (Tok.star :: ts') v'))
                      rw [ih f2' ts' (d :: v')
                          (by simp only [List.length_cons, List.length_nil] at *; omega)
                          (by simp only [List.length_cons, List.length_nil] at *; omega),
                        ih f2' (Tok.star :: ts') v'
                          (by simp only [List.length_cons, List.length_nil] at *; omega)
                          (by simp only [List.length_cons, List.length_nil] at *; omega)]

lemma tmatchAux_eq_tmatch (f : Nat) (ts : List Tok) (v : List Char)
    (h : ts.length + v.length < f) :
    tmatchAux f ts v = tmatch ts v :=
  tmatchAux_congr f (ts.length + v.length + 1) ts v h (by omega)

/-- Matching of one rule field against one value, as performed by the
compiled regexes stored in the config tree. -/
def globMatch (p v : List Char) : Bool :=
  tmatch (compiledToks p) v

/-- Specification-side reading of a wildcard field, stated from the claim's
words, to be compared with the compiled matcher: the value splits as the
pattern with every `*` replaced by an ARBITRARY substring and every other
character (regex metacharacters included) standing for itself.  This
reading is refuted by the compiled matcher on values containing a newline
(see the counterexample below); the faithful reading is
`GlobSpecNoNl`. -/
inductive GlobSpec : List Char → List Char → Prop where
  | nil : GlobSpec [] []
  | lit {c : Char} {p v : List Char} (hc : c ≠ '*') (h : GlobSpec p v) :
      GlobSpec (c :: p) (c :: v)
  | star {p v : List Char} (w : List Char) (h : GlobSpec p v) :
      GlobSpec ('*' :: p) (w ++ v)

/-- The amended wildcard reading: as `GlobSpec`, except that the substring
a `*` stands for may not contain a newline — the compiled `^...$` regex
has no `s` flag, so its `.` never matches `\n`. -/
inductive GlobSpecNoNl : List Char → List Char → Prop where
  | nil : GlobSpecNoNl [] []
  | lit {c : Char} {p v : List Char} (hc : c ≠ '*') (h : GlobSpecNoNl p v) :
      GlobSpecNoNl (c :: p) (c :: v)
  | star {p v : List Char} (w : List Char) (hw : ∀ c ∈ w, c ≠ '\n')
      (h : GlobSpecNoNl p v) : GlobSpecNoNl ('*' :: p) (w ++ v)

/-! ### Equation lemmas for `tmatch` -/

@[simp] lemma tmatch_nil_nil : tmatch [] [] = true := rfl

@[simp] lemma tmatch_nil_cons (d : Char) (v : List Char) :
    tmatch [] (d :: v) = false := rfl

@[simp] lemma tmatch_lit_nil (c : Char) (ts : List Tok) :
    tmatch (Tok.lit c :: ts) [] = false := rfl

@[simp] lemma tmatch_lit_cons (c : Char) (ts : List Tok) (d : Char) (v : List Char) :
    tmatch (Tok.lit c :: ts) (d :: v) = (c == d && tmatch ts v) := by
  have h : tmatch (Tok.lit c :: ts) (d :: v) =
      (c == d && tmatchAux (ts.length + 1 + (v.length + 1)) ts v) := rfl
  rw [h, tmatchAux_eq_tmatch _ _ _ (by omega)]

@[simp] lemma tmatch_star_nil (ts : List Tok) :
    tmatch (Tok.star :: ts) [] = tmatch ts [] := by
  have h : tmatch (Tok.star :: ts) [] =
      tmatchAux (ts.length + 1 + 0) ts [] := rfl
  rw [h, tmatchAux_eq_tmatch _ _ _ (by simp only [List.length_nil]; omega)]

@[simp] lemma tmatch_star_cons (ts : List Tok) (d : Char) (v : List Char) :
    tmatch (Tok.star :: ts) (d :: v) =
      (tmatch ts (d :: v) || (d != '\n' && tmatch (Tok.star :: ts) v)) := by
  have h : tmatch (Tok.star :: ts) (d :: v) =
      (tmatchAux (ts.length + 1 + (v.length + 1)) ts (d :: v) ||
        (d != '\n' && tmatchAux (ts.length + 1 + (v.length + 1)) (Tok.star :: ts) v)) := rfl
  rw [h, tmatchAux_eq_tmatch _ _ _ (by simp only [List.length_cons]; omega),
    tmatchAux_eq_tmatch _ _ _ (by simp only [List.length_cons]; omega)]

/-! ### Equivalence of the compiled matcher with the wildcard reading -/

@[simp] lemma compiledToks_nil : compiledToks [] = [] := rfl

@[simp] lemma compiledToks_cons_star (p : List Char) :
    compiledToks ('*' :: p) = Tok.star :: compiledToks p := by
  simp [compiledToks]

lemma compiledToks_cons_lit {c : Char} (hc : c ≠ '*') (p : List Char) :
    compiledToks (c :: p) = Tok.lit c :: compiledToks p := by
  simp [compiledToks, hc]

lemma tmatch_star_extend {ts : List Tok} {v : List Char} (d : Char)
    (hd : d ≠ '\n') (h : tmatch (Tok.star :: ts) v = true) :
    tmatch (Tok.star :: ts) (d :: v) = true := by
  simp only [tmatch_star_cons, Bool.or_eq_true, Bool.and_eq_true, bne_iff_ne]
  right
  exact ⟨hd, h⟩

lemma tmatch_star_prepend (w : List Char) (hw : ∀ c ∈ w, c ≠ '\n')
    {ts : List Tok} {v : List Char} (h : tmatch ts v = true) :
    tmatch (Tok.star :: ts) (w ++ v) = true := by
  induction w with
  | nil =>
      cases v with
      | nil => simpa using h
      | cons d u =>
          simp only [List.nil_append, tmatch_star_cons, Bool.or_eq_true]
          left
          exact h
  | cons d w' ihw =>
      exact tmatch_star_extend d (hw d (by simp))
        (ihw (fun c hc => hw c (by simp [hc])))

lemma globSpecNoNl_star_cons {p v : List Char} (d : Char) (hd : d ≠ '\n')
    (h : GlobSpecNoNl ('*' :: p) v) : GlobSpecNoNl ('*' :: p) (d :: v) := by
  cases h with
  | lit hc hrest => exact absurd rfl hc
  | star w hw hrest =>
      refine GlobSpecNoNl.star (d :: w) ?_ hrest
      intro c hc
      rcases List.mem_cons.mp hc with hcd | hcw
      · rw [hcd]; exact hd
      · exact hw c hcw

lemma tmatch_of_globSpecNoNl {p v : List Char} (h : GlobSpecNoNl p v) :
    tmatch (compiledToks p) v = true := by
  induction h with
  | nil => simp
  | lit hc hder ih =>
      rw [compiledToks_cons_lit hc, tmatch_lit_cons]
      simp [ih]
  | star w hw hder ih =>
      rw [compiledToks_cons_star]
      exact tmatch_star_prepend w hw ih

lemma globSpecNoNl_of_tmatch :
    ∀ p v : List Char, tmatch (compiledToks p) v = true → GlobSpecNoNl p v := by
  intro p
  induction p with
  | nil =>
      intro v h
      cases v with
      | nil => exact GlobSpecNoNl.nil
      | cons d v' => simp at h
  | cons c p' ih =>
      intro v
      by_cases hc : c = '*'
      · subst hc
        rw [compiledToks_cons_star]
        intro h
        induction v with
        | nil =>
            rw [tmatch_star_nil] at h
            exact GlobSpecNoNl.star [] (by intro c hc; simp at hc) (ih [] h)
        | cons d v' ihv =>
            rw [tmatch_star_cons, Bool.or_eq_true, Bool.and_eq_true, bne_iff_ne] at h
            rcases h with h1 | ⟨hd, h2⟩
            · exact GlobSpecNoNl.star [] (by intro c hc; simp at hc) (ih (d :: v') h1)
            · exact globSpecNoNl_star_cons d hd (ihv h2)
      · rw [compiledToks_cons_lit hc]
        intro h
        cases v with
        | nil => simp at h
        | cons d v' =>
            rw [tmatch_lit_cons, Bool.and_eq_true, beq_iff_eq] at h
            rcases h with ⟨hcd, hrest⟩
            subst hcd
            exact GlobSpecNoNl.lit hc (ih v' hrest)

/-- The compiled matcher agrees with the newline-aware wildcard reading. -/
lemma globMatch_iff_globSpecNoNl (p v : List Char) :
    globMatch p v = true ↔ GlobSpecNoNl p v :=
  ⟨globSpecNoNl_of_tmatch p v, tmatch_of_globSpecNoNl⟩

/-- Under the claim's unrestricted reading, a lone `*` covers any value
whole. -/
lemma globSpec_star_whole (w : List Char) : GlobSpec ['*'] w := by
  have h := GlobSpec.star (p := []) (v := []) w GlobSpec.nil
  simpa using h

/-- String-level wrapper of the compiled field matcher (the stored
`node.regex.MatchString(value)` of config.go). -/
def globMatchS (p v : String) : Bool :=
  globMatch p.data v.data

/-! ## The config rule tree (`Config.AddRegex` / `Config.shouldSkip`)

config.go stores rules in a six-level tree of nodes
(group, resource, type, status, reason, message), each level a map keyed by
the pattern string whose node carries the regex compiled from that key.
Go maps are embedded as association lists keyed by the pattern (`pat`);
the compiled regex is determined by the key, so only the key is stored.
Map-iteration order is irrelevant: every lookup below is an existence
check (`any`). -/

structure MessageNode where
  pat : String
  deriving Repr

structure ReasonNode where
  pat : String
  messages : List MessageNode
  deriving Repr

structure StatusNode where
  pat : String
  reasons : List ReasonNode
  deriving Repr

structure TypeNode where
  pat : String
  statuses : List StatusNode
  deriving Repr

structure ResourceNode where
  pat : String
  types : List TypeNode
  deriving Repr

structure GroupNode where
  pat : String
  resources : List ResourceNode
  deriving Repr

/-- The in-memory rule index (`Config.groupTree`). -/
structure Config where
  groupTree : List GroupNode
  deriving Repr

/-- A rule as supplied to `Config.AddRegex`: a six-tuple of wildcard
patterns. -/
structure Rule where
  rGroup : String
  rResource : String
  rType : String
  rStatus : String
  rReason : String
  rMessage : String
  deriving Repr

/-! ### Insertion (`Config.AddRegex`), one level at a time -/

def addMessageT (ms : List MessageNode) (m : String) : List MessageNode :=
  if ms.any (fun n => n.pat == m) then ms else ms ++ [⟨m⟩]

def addReasonT : List ReasonNode → String → String → List ReasonNode
  | [], re, m => [⟨re, addMessageT [] m⟩]
  | n :: t, re, m =>
      if n.pat == re then { n with messages := addMessageT n.messages m } :: t
      else n :: addReasonT t re m

def addStatusT : List StatusNode → String → String → String → List StatusNode
  | [], s, re, m => [⟨s, addReasonT [] re m⟩]
  | n :: t, s, re, m =>
      if n.pat == s then { n with reasons := addReasonT n.reasons re m } :: t
      else n :: addStatusT t s re m

def addTypeT : List TypeNode → String → String → String → String → List TypeNode
  | [], ty, s, re, m => [⟨ty, addStatusT [] s re m⟩]
  | n :: t, ty, s, re, m =>
      if n.pat == ty then { n with statuses := addStatusT n.statuses s re m } :: t
      else n :: addTypeT t ty s re m

def addResourceT : List ResourceNode → String → String → String → String → String →
    List ResourceNode
  | [], r, ty, s, re, m => [⟨r, addTypeT [] ty s re m⟩]
  | n :: t, r, ty, s, re, m =>
      if n.pat == r then { n with types := addTypeT n.types ty s re m } :: t
      else n :: addResourceT t r ty s re m

def addGroupT : List GroupNode → String → String → String → String → String → String →
    List GroupNode
  | [], g, r, ty, s, re, m => [⟨g, addResourceT [] r ty s re m⟩]
  | n :: t, g, r, ty, s, re, m =>
      if n.pat == g then { n with resources := addResourceT n.resources r ty s re m } :: t
      else n :: addGroupT t g r ty s re m

/-- Model of `Config.AddRegex`: insert the six patterns into the tree,
creating the missing nodes and descending into the existing ones.
(`compilePattern` cannot fail after `regexp.QuoteMeta`, so the Go error
branches are unreachable and the embedding is total.) -/
def Config.addRegex (c : Config) (g r ty s re m : String) : Config :=
  ⟨addGroupT c.groupTree g r ty s re m⟩

/-- Folding `AddRegex` over a list of rules, starting from the empty tree. -/
def buildConfig (rules : List Rule) : Config :=
  rules.foldl
    (fun c ru => c.addRegex ru.rGroup ru.rResource ru.rType ru.rStatus ru.rReason ru.rMessage)
    ⟨[]⟩

/-! ### Lookup (`Config.shouldSkip` and its `match*` helpers) -/

def matchMessagesT (ms : List MessageNode) (m : String) : Bool :=
  ms.any (fun n => globMatchS n.pat m)

def matchReasonsT (rs : List ReasonNode) (re m : String) : Bool :=
  rs.any (fun n => globMatchS n.pat re && matchMessagesT n.messages m)

def matchStatusesT (ss : List StatusNode) (s re m : String) : Bool :=
  ss.any (fun n => globMatchS n.pat s && matchReasonsT n.reasons re m)

def matchTypesT (tys : List TypeNode) (ty s re m : String) : Bool :=
  tys.any (fun n => globMatchS n.pat ty && matchStatusesT n.statuses s re m)

def matchResourcesT (res : List ResourceNode) (r ty s re m : String) : Bool :=
  res.any (fun n => globMatchS n.pat r && matchTypesT n.types ty s re m)

/-- Model of `Config.shouldSkip`: does any root-to-leaf path of the tree
match all six values? -/
def Config.shouldSkip (c : Config) (g r ty s re m : String) : Bool :=
  c.groupTree.any (fun n => globMatchS n.pat g && matchResourcesT n.resources r ty s re m)

/-- Does one rule match the six-tuple, every field an anchored wildcard
match? -/
def ruleMatches (ru : Rule) (g r ty s re m : String) : Bool :=
  globMatchS ru.rGroup g &&
    (globMatchS ru.rResource r &&
      (globMatchS ru.rType ty &&
        (globMatchS ru.rStatus s &&
          (globMatchS ru.rReason re && globMatchS ru.rMessage m))))

/-! ### Insertion preserves the flat-rule-list semantics -/

lemma bool_absorb_distrib (a b c d : Bool) :
    (a && (b || c) || d) = ((a && b || d) || a && c) := by
  cases a <;> cases b <;> cases c <;> cases d <;> rfl

lemma matchMessagesT_addMessageT (ms : List MessageNode) (m x : String) :
    matchMessagesT (addMessageT ms m) x = (matchMessagesT ms x || globMatchS m x) := by
  unfold addMessageT
  by_cases hmem : ms.any (fun n => n.pat == m) = true
  · rw [if_pos hmem]
    rcases List.any_eq_true.mp hmem with ⟨n, hn, hpat⟩
    have hpat' : n.pat = m := by simpa using hpat
    by_cases hg : globMatchS m x = true
    · have : matchMessagesT ms x = true := by
        refine List.any_eq_true.mpr ⟨n, hn, ?_⟩
        rw [hpat']
        exact hg
      simp [this, hg]
    · simp [Bool.eq_false_iff.mpr hg]
  · rw [if_neg hmem]
    unfold matchMessagesT
    simp [List.any_append]

lemma matchReasonsT_addReasonT (rs : List ReasonNode) (re m re' m' : String) :
    matchReasonsT (addReasonT rs re m) re' m' =
      (matchReasonsT rs re' m' || (globMatchS re re' && globMatchS m m')) := by
  induction rs with
  | nil =>
      simp [addReasonT, matchReasonsT, matchMessagesT, addMessageT]
  | cons n t ih =>
      unfold addReasonT
      by_cases hpat : n.pat == re
      · have hpe : n.pat = re := by simpa using hpat
        rw [if_pos hpat]
        unfold matchReasonsT at *
        simp only [List.any_cons, matchMessagesT_addMessageT, hpe]
        exact bool_absorb_distrib _ _ _ _
      · rw [if_neg hpat]
        unfold matchReasonsT at *
        simp only [List.any_cons, ih, Bool.or_assoc]

lemma matchStatusesT_addStatusT (ss : List StatusNode) (s re m s' re' m' : String) :
    matchStatusesT (addStatusT ss s re m) s' re' m' =
      (matchStatusesT ss s' re' m' ||
        (globMatchS s s' && (globMatchS re re' && globMatchS m m'))) := by
  induction ss with
  | nil =>
      simp [addStatusT, addReasonT, addMessageT, matchStatusesT, matchReasonsT,
        matchMessagesT]
  | cons n t ih =>
      unfold addStatusT
      by_cases hpat : n.pat == s
      · have hpe : n.pat = s := by simpa using hpat
        rw [if_pos hpat]
        unfold matchStatusesT at *
        simp only [List.any_cons, matchReasonsT_addReasonT, hpe]
        exact bool_absorb_distrib _ _ _ _
      · rw [if_neg hpat]
        unfold matchStatusesT at *
        simp only [List.any_cons, ih, Bool.or_assoc]

lemma matchTypesT_addTypeT (tys : List TypeNode) (ty s re m ty' s' re' m' : String) :
    matchTypesT (addTypeT tys ty s re m) ty' s' re' m' =
      (matchTypesT tys ty' s' re' m' ||
        (globMatchS ty ty' &&
          (globMatchS s s' && (globMatchS re re' && globMatchS m m')))) := by
  induction tys with
  | nil =>
      simp [addTypeT, addStatusT, addReasonT, addMessageT, matchTypesT, matchStatusesT,
        matchReasonsT, matchMessagesT]
  | cons n t ih =>
      unfold addTypeT
      by_cases hpat : n.pat == ty
      · have hpe : n.pat = ty := by simpa using hpat
        rw [if_pos hpat]
        unfold matchTypesT at *
        simp only [List.any_cons, matchStatusesT_addStatusT, hpe]
        exact bool_absorb_distrib _ _ _ _
      · rw [if_neg hpat]
        unfold matchTypesT at *
        simp only [List.any_cons, ih, Bool.or_assoc]

lemma matchResourcesT_addResourceT (res : List ResourceNode)
    (r ty s re m r' ty' s' re' m' : String) :
    matchResourcesT (addResourceT res r ty s re m) r' ty' s' re' m' =
      (matchResourcesT res r' ty' s' re' m' ||
        (globMatchS r r' &&
          (globMatchS ty ty' &&
            (globMatchS s s' && (globMatchS re re' && globMatchS m m'))))) := by
  induction res with
  | nil =>
      simp [addResourceT, addTypeT, addStatusT, addReasonT, addMessageT, matchResourcesT,
        matchTypesT, matchStatusesT, matchReasonsT, matchMessagesT]
  | cons n t ih =>
      unfold addResourceT
      by_cases hpat : n.pat == r
      · have hpe : n.pat = r := by simpa using hpat
        rw [if_pos hpat]
        unfold matchResourcesT at *
        simp only [List.any_cons, matchTypesT_addTypeT, hpe]
        exact bool_absorb_distrib _ _ _ _
      · rw [if_neg hpat]
        unfold matchResourcesT at *
        simp only [List.any_cons, ih, Bool.or_assoc]

lemma shouldSkip_addRegex (c : Config) (ru : Rule) (g r ty s re m : String) :
    (c.addRegex ru.rGroup ru.rResource ru.rType ru.rStatus ru.rReason ru.rMessage).shouldSkip
        g r ty s re m =
      (c.shouldSkip g r ty s re m || ruleMatches ru g r ty s re m) := by
  obtain ⟨tree⟩ := c
  unfold Config.addRegex Config.shouldSkip ruleMatches
  induction tree with
  | nil =>
      simp [addGroupT, addResourceT, addTypeT, addStatusT, addReasonT, addMessageT,
        matchResourcesT, matchTypesT, matchStatusesT, matchReasonsT, matchMessagesT]
  | cons n t ih =>
      unfold addGroupT
      by_cases hpat : n.pat == ru.rGroup
      · have hpe : n.pat = ru.rGroup := by simpa using hpat
        rw [if_pos hpat]
        simp only [List.any_cons, matchResourcesT_addResourceT, hpe]
        exact bool_absorb_distrib _ _ _ _
      · rw [if_neg hpat]
        simp only [List.any_cons] at ih ⊢
        simp only [ih, Bool.or_assoc]

lemma shouldSkip_foldl (rules : List Rule) (c : Config) (g r ty s re m : String) :
    (rules.foldl
        (fun c ru =>
          c.addRegex ru.rGroup ru.rResource ru.rType ru.rStatus ru.rReason ru.rMessage)
        c).shouldSkip g r ty s re m =
      (c.shouldSkip g r ty s re m || rules.any (fun ru => ruleMatches ru g r ty s re m)) := by
  induction rules generalizing c with
  | nil => simp
  | cons ru t ih =>
      simp only [List.foldl_cons, List.any_cons]
      rw [ih, shouldSkip_addRegex, Bool.or_assoc]

/-- The tree lookup is exactly the flat scan of the inserted rules. -/
lemma shouldSkip_buildConfig (rules : List Rule) (g r ty s re m : String) :
    (buildConfig rules).shouldSkip g r ty s re m =
      rules.any (fun ru => ruleMatches ru g r ty s re m) := by
  rw [buildConfig, shouldSkip_foldl]
  simp [Config.shouldSkip]

/-! ## Legacy classifier tables (checkconditions.go)

String-level wrappers for the Go helpers used by the legacy tables
(`strings.HasSuffix`, `strings.HasPrefix`, and the substring search that an
unanchored literal regex performs). -/

/-- Model of `strings.HasSuffix s suf`. -/
def goEndsWith (s suf : String) : Bool :=
  endsWithL suf.data s.data

/-- Model of `strings.HasPrefix s pre`. -/
def goStartsWith (s pre : String) : Bool :=
  startsWithL pre.data s.data

/-- Model of an unanchored search for a literal pattern inside `s`
(`regexp.MatchString` for a pattern free of metacharacters). -/
def goContains (s pat : String) : Bool :=
  hasSubstrL pat.data s.data

/-- Go map lookup `m[resource]` over the per-resource exception tables; a
missing key yields the nil slice, embedded as `[]`. -/
def mapLookup (m : List (String × List String)) (k : String) : List String :=
  match m.find? (fun kv => kv.1 == k) with
  | some kv => kv.2
  | none => []

/-- Table `resourcesToSkip`: resource names never scanned. -/
def resourcesToSkip : List String :=
  ["bindings", "tokenreviews", "selfsubjectreviews", "selfsubjectaccessreviews",
   "selfsubjectrulesreviews", "localsubjectaccessreviews", "subjectaccessreviews",
   "componentstatuses"]

/-- Model of `conditionToSkip`: condition types that are legitimate in both
the `True` and the `False` state and are therefore always dropped. -/
def conditionToSkip (ct : String) : Bool :=
  ["DisruptionAllowed", "LoadBalancerAttachedToNetwork", "NetworkAttached",
   "PodReadyToStartContainers"].contains ct

/-- Table `conditionTypesOfResourceWithPositiveMeaning`. -/
def conditionTypesOfResourceWithPositiveMeaning : List (String × List String) :=
  [("extensionconfigs", ["Discovered"]),
   ("hetznerclusters", ["ControlPlaneEndpointSet"]),
   ("hetznerbaremetalmachines", ["AssociateBMHCondition"]),
   ("horizontalpodautoscalers", ["AbleToScale", "ScalingActive"]),
   ("hetznerbaremetalhosts", ["RootDeviceHintsValidated"]),
   ("clusters", ["ContinuousArchiving"]),
   ("clusteraddons", ["ClusterAddonConfigValidated", "ClusterAddonHelmChartUntarred"]),
   ("engineimages", ["ready"]),
   ("nodes", ["Schedulable", "MountPropagation"])]

/-- Table `conditionTypesOfResourceWithNegativeMeaning`. -/
def conditionTypesOfResourceWithNegativeMeaning : List (String × List String) :=
  [("nodes", ["KernelDeadlock", "ReadonlyFilesystem", "FrequentUnregisterNetDevice",
              "NTPProblem"]),
   ("horizontalpodautoscalers", ["ScalingLimited"])]

/-- The generic positive suffix table of `conditionTypeHasPositiveMeaning`. -/
def positiveSuffixList : List String :=
  ["Applied", "Approved", "Available", "Built", "Complete", "Created", "Downloaded",
   "Established", "Healthy", "Initialized", "Installed", "LoadBalancerAttached",
   "NamesAccepted", "Passed", "PodScheduled", "Progressing", "Provisioned", "Reachable",
   "Ready", "Reconciled", "RemediationAllowed", "Resized", "Succeeded", "Synced",
   "UpToDate", "ProviderUpgraded"]

/-- The generic positive prefix table of `conditionTypeHasPositiveMeaning`. -/
def positivePrefixList : List String :=
  ["Created"]

/-- Model of `conditionTypeHasPositiveMeaning`: per-resource exception list
first, then the generic suffix and prefix tables. -/
def conditionTypeHasPositiveMeaning (resource ct : String) : Bool :=
  (mapLookup conditionTypesOfResourceWithPositiveMeaning resource).contains ct ||
    positiveSuffixList.any (fun suf => goEndsWith ct suf) ||
    positivePrefixList.any (fun pre => goStartsWith ct pre)

/-- Model of `conditionTypeHasNegativeMeaning`: per-resource exception list
first, then the generic suffix table, then the `Frequent…Restart` pattern. -/
def conditionTypeHasNegativeMeaning (resource ct : String) : Bool :=
  (mapLookup conditionTypesOfResourceWithNegativeMeaning resource).contains ct ||
    ["Unavailable", "Pressure", "Dangling", "Unhealthy"].any (fun suf => goEndsWith ct suf) ||
    (goStartsWith ct "Frequent" && goEndsWith ct "Restart")

/-- Model of `conditionDone` (expected terminal states).  For type
`MachinesReady` the Go code splits the REASON on `@` and stores the trimmed
first part into the TYPE variable before the table lookups. -/
def conditionDone (conditionType conditionStatus conditionReason : String) : Bool :=
  ["Ready", "ContainersReady", "InfrastructureReady", "MachinesReady"].contains
      (if conditionType == "MachinesReady"
       then (⟨trimSpaceL (takeBeforeAtL conditionReason.data)⟩ : String)
       else conditionType) &&
    ["PodCompleted", "InstanceTerminated", "Deleted"].contains conditionReason &&
    conditionStatus == "False"

/-- Model of Go's `%q` on the condition message.  `%q` additionally escapes
quotes, backslashes and control characters; no string in this development
contains such characters, so plain quoting is faithful here. -/
def goQuote (s : String) : String :=
  "\"" ++ s ++ "\""

/-- The literal texts of `conditionLinesToIgnoreRegexs`.  Each entry of the
Go table is a regex of literal characters, two of them with a trailing
`.*`; since `.*` also matches the empty string, `MatchString` for such a
pattern succeeds exactly when the literal text occurs as a substring of the
line, so the trailing `.*` is dropped here. -/
def conditionLinesToIgnoreLiterals : List String :=
  ["machinesets MachinesReady=False Deleted @",
   "machinesets Ready=False Deleted @",
   "backuptargets Unavailable=True Unavailable \"backup target URL is empty\"",
   "engines InstanceCreation=True",
   "engines FilesystemReadOnly=False",
   "replicas InstanceCreation=True",
   "replicas FilesystemReadOnly=False",
   "replicas WaitForBackingImage=False",
   "volumes WaitForBackingImage=False",
   "volumes TooManySnapshots=False",
   "volumes Scheduled=True",
   "volumes Restore=False"]

/-- One condition entry, after the Go map assertions
(`conditionMap["type"].(string)` and friends, which default to `""`).
A non-map entry makes `handleCondition` return the rows unchanged without
counting; only well-shaped entries are modelled.  `lastTransitionTime` is
carried as its raw string: `time.Parse` only feeds the printed age and no
claim depends on it. -/
structure Cond where
  conditionType : String
  conditionStatus : String
  conditionReason : String
  conditionMessage : String
  lastTransitionTime : String
  deriving Repr, DecidableEq

/-- One surviving row (`conditionRow`), the transition time kept raw. -/
structure Row where
  conditionType : String
  conditionStatus : String
  conditionReason : String
  conditionMessage : String
  lastTransitionTime : String
  deriving Repr, DecidableEq

/-- The row appended for a reported entry. -/
def mkRow (c : Cond) : Row :=
  ⟨c.conditionType, c.conditionStatus, c.conditionReason, c.conditionMessage,
   c.lastTransitionTime⟩

/-- Per-job output and condition counter (`handleResourceTypeOutput`).  The
Go fields are `int32`; no claim concerns counts near `2^31`, so the
wraparound is not modelled. -/
structure RTOutput where
  checkedResourceTypes : Nat
  checkedResources : Nat
  checkedConditions : Nat
  checkAgain : Bool
  deriving Repr, DecidableEq

def zeroRTOutput : RTOutput :=
  ⟨0, 0, 0, false⟩

/-- The formatted classification line
`<resource> <type>=<status> <reason> "<message>"` checked against the
ignore table inside `handleCondition`. -/
def mkConditionLine (resource : String) (c : Cond) : String :=
  resource ++ " " ++ c.conditionType ++ "=" ++ c.conditionStatus ++ " " ++
    c.conditionReason ++ " " ++ goQuote c.conditionMessage

/-- Does the classification line match any ignore entry? -/
def ignoreLineMatches (line : String) : Bool :=
  conditionLinesToIgnoreLiterals.any (fun pat => goContains line pat)

/-- Model of `handleCondition`: count the entry, then run the legacy rule
chain in source order (always-skip, positive@True, negative@False,
ignore-line, terminal-state), appending a row only when no rule fires. -/
def handleCondition (resource : String) (c : Cond) (counter : RTOutput)
    (rows : List Row) : List Row × RTOutput :=
  let counter := { counter with checkedConditions := counter.checkedConditions + 1 }
  if conditionToSkip c.conditionType then (rows, counter)
  else if c.conditionStatus == "True" && conditionTypeHasPositiveMeaning resource c.conditionType then
    (rows, counter)
  else if c.conditionStatus == "False" && conditionTypeHasNegativeMeaning resource c.conditionType then
    (rows, counter)
  else if ignoreLineMatches (mkConditionLine resource c) then (rows, counter)
  else if conditionDone c.conditionType c.conditionStatus c.conditionReason then (rows, counter)
  else (rows ++ [mkRow c], counter)

/-- The report/suppress verdict of the legacy chain as a function of the
six-tuple alone (used to state that `handleCondition` has no other
dependency). -/
def legacyReport (resource : String) (c : Cond) : Bool :=
  if conditionToSkip c.conditionType then false
  else if c.conditionStatus == "True" && conditionTypeHasPositiveMeaning resource c.conditionType then
    false
  else if c.conditionStatus == "False" && conditionTypeHasNegativeMeaning resource c.conditionType then
    false
  else if ignoreLineMatches (mkConditionLine resource c) then false
  else if conditionDone c.conditionType c.conditionStatus c.conditionReason then false
  else true

/-- `handleCondition` counts the entry and appends the row exactly when the
pure verdict reports: its whole effect is a function of the six-tuple and
the prior rows/counter. -/
lemma handleCondition_eq (resource : String) (c : Cond) (counter : RTOutput)
    (rows : List Row) :
    handleCondition resource c counter rows =
      ((if legacyReport resource c then rows ++ [mkRow c] else rows),
        { counter with checkedConditions := counter.checkedConditions + 1 }) := by
  unfold handleCondition legacyReport
  split_ifs <;> first | rfl | simp_all

/-! ## The Ready-merge rule and output of `printConditions` -/

/-- Comparison against `readyString = "Ready"`. -/
def isReadyRow (r : Row) : Bool :=
  r.conditionType == "Ready"

/-- The first surviving row of type `Ready` (the `ready` pointer of
`printConditions`). -/
def findReady (rows : List Row) : Option Row :=
  rows.find? isReadyRow

/-- Model of the `skipReadyCondition` computation: some non-Ready row shares
status, reason and message with the first Ready row. -/
def skipReadyCondition (rows : List Row) : Bool :=
  match findReady rows with
  | none => false
  | some rd =>
      rows.any (fun r =>
        !isReadyRow r &&
          (r.conditionMessage == rd.conditionMessage &&
            (r.conditionReason == rd.conditionReason &&
              r.conditionStatus == rd.conditionStatus)))

/-- The rows actually printed by `printConditions`: all surviving rows,
minus every Ready row when `skipReadyCondition` holds. -/
def outputRows (rows : List Row) : List Row :=
  if skipReadyCondition rows then rows.filter (fun r => !isReadyRow r) else rows

/-- Model of the printed report line
`  <namespace> <resourceName> <objectName> Condition <Type>=<Status> <Reason> "<Message>" (<age>)`.
The age is the elapsed time since `lastTransitionTime`, passed in
abstractly (`dur`) because it depends on the wall clock. -/
def mkOutLine (ns resource objName : String) (r : Row) (dur : String) : String :=
  "  " ++ ns ++ " " ++ resource ++ " " ++ objName ++ " Condition " ++
    r.conditionType ++ "=" ++ r.conditionStatus ++ " " ++ r.conditionReason ++ " " ++
    goQuote r.conditionMessage ++ " (" ++ dur ++ ")"

/-- The `again` verdict of `printConditions`: some printed line matches the
`WhileRegex`.  The compiled regex is abstracted as the pure predicate `m`
(`MatchString` mutates nothing). -/
def checkAgainOfLines (m : String → Bool) (lines : List String) : Bool :=
  lines.any m

/-- Model of `regexp.MatchString` for the user pattern `"."`: `.` matches
any single character except newline and the search is unanchored, so a
line matches iff it contains at least one non-newline character. -/
def dotMatch (s : String) : Bool :=
  s.data.any (fun c => c != '\n')

/-- Full model of `printConditions` for one object: classify every entry,
apply the Ready-merge, format the surviving rows and report whether any
line matches the while-pattern.  Returns `(again, counter)`. -/
def printConditions (m : Option (String → Bool)) (durFn : Row → String)
    (resource ns objName : String) (conditions : List Cond) (counter : RTOutput) :
    Bool × RTOutput :=
  let step := fun (acc : List Row × RTOutput) (c : Cond) =>
    handleCondition resource c acc.2 acc.1
  let out := conditions.foldl step ([], counter)
  let lines := (outputRows out.1).map (fun r => mkOutLine ns resource objName r (durFn r))
  let again := match m with
    | none => false
    | some mf => checkAgainOfLines mf lines
  (again, out.2)

/-! ## Resource enumeration and the per-job worker -/

/-- Model of `containsSlash` exactly as written in the source: true iff the
FIRST byte of the name is a slash (`len(s) > 0 && s[0] == '/'`). -/
def containsSlash (s : String) : Bool :=
  match s.data with
  | [] => false
  | c :: _ => c == '/'

/-- A listed object: its identity and its extracted conditions array.  The
dotted-path lookup (`status.conditions`, or `spec.status.conditions` for
`hetznerbaremetalhosts`) is performed by the external unstructured API and
is modelled by the object carrying its entries directly. -/
structure KObject where
  ns : String
  name : String
  conditions : List Cond
  deriving Repr

/-- Model of `printResources`: per object, count it and run
`printConditions`; `again` is the disjunction over the objects. -/
def printResources (m : Option (String → Bool)) (durFn : Row → String)
    (resource : String) (objs : List KObject) (counter : RTOutput) : Bool × RTOutput :=
  objs.foldl
    (fun (acc : Bool × RTOutput) obj =>
      let counter := { acc.2 with checkedResources := acc.2.checkedResources + 1 }
      let res := printConditions m durFn resource obj.ns obj.name obj.conditions counter
      (acc.1 || res.1, res.2))
    (false, counter)

/-- Model of `handleResourceType`, one job of the worker pool.  The dynamic
`List` call is embedded as data: `listResult` is the outcome the cluster
returned for this job (`Except` for the Go `err`).  On error the job is
abandoned with its partial counts; nothing terminates. -/
def handleResourceType (m : Option (String → Bool)) (durFn : Row → String)
    (name : String) (listResult : Except String (List KObject)) : RTOutput :=
  if containsSlash name then zeroRTOutput
  else if resourcesToSkip.contains name then zeroRTOutput
  else
    let output := { zeroRTOutput with checkedResourceTypes := 1 }
    match listResult with
    | .error _ => output
    | .ok objs =>
        let res := printResources m durFn name objs output
        { res.2 with checkAgain := res.1 }

/-- Cycle-wide counters (`Counter`; the start time only feeds the printed
duration and is omitted). -/
structure Counter where
  checkedResources : Nat
  checkedConditions : Nat
  checkedResourceTypes : Nat
  checkAgain : Bool
  deriving Repr, DecidableEq

def zeroCounter : Counter :=
  ⟨0, 0, 0, false⟩

/-- Model of `Counter.add`: merge one job output into the cycle counters. -/
def Counter.add (c : Counter) (o : RTOutput) : Counter :=
  { checkedResources := c.checkedResources + o.checkedResources,
    checkedConditions := c.checkedConditions + o.checkedConditions,
    checkedResourceTypes := c.checkedResourceTypes + o.checkedResourceTypes,
    checkAgain := c.checkAgain || o.checkAgain }

/-- One job of a scan cycle: the resource name and the listing outcome the
cluster produced for it. -/
structure Job where
  name : String
  listResult : Except String (List KObject)

/-- Model of the aggregation loop of `RunCheckAllConditions`: every job
output is merged into the counters through the single `Counter.add` path.
The workers interleave arbitrarily; `Counter.add` is commutative and
associative in each field, so the merge order is irrelevant and one fold
represents every schedule. -/
def runCycle (m : Option (String → Bool)) (durFn : Row → String) (jobs : List Job) : Counter :=
  jobs.foldl (fun c j => c.add (handleResourceType m durFn j.name j.listResult)) zeroCounter

/-! ## The poll controller (`RunAll` / `RunAllOnce`) -/

/-- The continue/stop decision at the end of `RunAllOnce`:
run again iff `args.WhileForever || checkAgain`. -/
def runAgainDecision (whileForever checkAgain : Bool) : Bool :=
  whileForever || checkAgain

/-- Model of the `RunAll` loop over an abstract sequence of cycles:
`again i` is the `checkAgain` verdict cycle `i` would produce.  `fuel`
bounds the observation; the result is the number of cycles executed when
the loop stops within the bound (`none`: still running). -/
def runAllLoop (whileForever : Bool) (again : Nat → Bool) : Nat → Nat → Option Nat
  | 0, _ => none
  | fuel + 1, i =>
      if runAgainDecision whileForever (again i) then runAllLoop whileForever again fuel (i + 1)
      else some (i + 1)

/-! ## The legacy/config mode dispatcher -/

/-- The four classification modes of the migration facility. -/
inductive ConditionMode where
  | onlyOld
  | onlyNew
  | oldCompareNew
  | newCompareOld
  deriving Repr, DecidableEq

/-- Modelled from the spec: the mode-dispatching classifier
(`skipConditionViaConfig` and the `ConditionMode` wiring) is not among the
source files; only its documentation, tests and callers are.  Per the spec,
the always-skip set is applied first in every mode ("For all entries whose
type is in the always-skip set, the Classifier never reports them
regardless of status (property, any ruleset)"), the legacy chain decides
under `only-old`/`old-compare-new`, and the config lookup decides under
`only-new`/`new-compare-old` (an entry is reported iff no inserted rule
matches it).  In the compare modes only diagnostics differ, never the
verdict. -/
def classifyReport (mode : ConditionMode) (cfg : Config) (group resource : String)
    (c : Cond) : Bool :=
  if conditionToSkip c.conditionType then false
  else
    match mode with
    | .onlyOld | .oldCompareNew => legacyReport resource c
    | .onlyNew | .newCompareOld =>
        !(cfg.shouldSkip group resource c.conditionType c.conditionStatus
            c.conditionReason c.conditionMessage)

/-! ## Helper lemmas for the claim theorems -/

lemma find?_of_filter_singleton {α : Type} (p : α → Bool) :
    ∀ (l : List α) (a : α), l.filter p = [a] → l.find? p = some a := by
  intro l
  induction l with
  | nil => intro a h; simp at h
  | cons x t ih =>
      intro a h
      by_cases hx : p x = true
      · rw [List.filter_cons_of_pos hx] at h
        injection h with hxa hrest
        rw [List.find?_cons_of_pos _ hx, hxa]
      · rw [List.filter_cons_of_neg (by simpa using hx)] at h
        rw [List.find?_cons_of_neg _ (by simpa using hx)]
        exact ih a h

lemma count_filter_of_pos {α : Type} [DecidableEq α] (p : α → Bool) (a : α)
    (h : p a = true) :
    ∀ l : List α, (l.filter p).count a = l.count a := by
  intro l
  induction l with
  | nil => rfl
  | cons x t ih =>
      by_cases hx : p x = true
      · rw [List.filter_cons_of_pos hx, List.count_cons, List.count_cons, ih]
      · rw [List.filter_cons_of_neg (by simpa using hx), List.count_cons, ih]
        have hxa : ¬x = a := by
          intro he
          rw [he] at hx
          exact hx h
        simp [hxa]

/-- The `Frequent…Restart` pattern rule fires for `FrequentContainerRestart`
regardless of the resource. -/
lemma negativeMeaning_frequentContainerRestart (resource : String) :
    conditionTypeHasNegativeMeaning resource "FrequentContainerRestart" = true := by
  unfold conditionTypeHasNegativeMeaning
  have h : (goStartsWith "FrequentContainerRestart" "Frequent" &&
      goEndsWith "FrequentContainerRestart" "Restart") = true := by decide
  rw [h]
  simp

/-- No table and no pattern gives `ContainerRestart` a negative meaning,
for any resource. -/
lemma negativeMeaning_containerRestart (resource : String) :
    conditionTypeHasNegativeMeaning resource "ContainerRestart" = false := by
  unfold conditionTypeHasNegativeMeaning mapLookup conditionTypesOfResourceWithNegativeMeaning
  by_cases h1 : "nodes" = resource
  · rw [← h1]; decide
  · by_cases h2 : "horizontalpodautoscalers" = resource
    · rw [← h2]; decide
    · have e1 : (("nodes" : String) == resource) = false := by
        simpa using h1
      have e2 : (("horizontalpodautoscalers" : String) == resource) = false := by
        simpa using h2
      simp only [List.find?, e1, e2]
      decide

/-- `conditionDone` never fires for type `ContainerRestart`, whatever the
reason. -/
lemma conditionDone_containerRestart (st re : String) :
    conditionDone "ContainerRestart" st re = false := by
  unfold conditionDone
  rw [if_neg (by decide)]
  have h : (["Ready", "ContainersReady", "InfrastructureReady",
      "MachinesReady"].contains ("ContainerRestart" : String)) = false := by decide
  rw [h]
  simp

/-- Merging two batches of cycle counters (the additive combination that
`Counter.add` performs job by job). -/
def Counter.merge (c1 c2 : Counter) : Counter :=
  { checkedResources := c1.checkedResources + c2.checkedResources,
    checkedConditions := c1.checkedConditions + c2.checkedConditions,
    checkedResourceTypes := c1.checkedResourceTypes + c2.checkedResourceTypes,
    checkAgain := c1.checkAgain || c2.checkAgain }

lemma counter_eq (c1 c2 : Counter)
    (h1 : c1.checkedResources = c2.checkedResources)
    (h2 : c1.checkedConditions = c2.checkedConditions)
    (h3 : c1.checkedResourceTypes = c2.checkedResourceTypes)
    (h4 : c1.checkAgain = c2.checkAgain) : c1 = c2 := by
  cases c1
  cases c2
  simp_all

lemma merge_zero (c : Counter) : Counter.merge c zeroCounter = c := by
  refine counter_eq _ _ ?_ ?_ ?_ ?_ <;> simp [Counter.merge, zeroCounter]

lemma merge_add_assoc (c d : Counter) (o : RTOutput) :
    (Counter.merge c d).add o = Counter.merge c (d.add o) := by
  refine counter_eq _ _ ?_ ?_ ?_ ?_ <;>
    simp [Counter.merge, Counter.add, Nat.add_assoc, Bool.or_assoc]

lemma runCycle_cons (m : Option (String → Bool)) (durFn : Row → String)
    (j : Job) (js : List Job) (c : Counter) :
    (j :: js).foldl (fun c j => c.add (handleResourceType m durFn j.name j.listResult)) c =
      js.foldl (fun c j => c.add (handleResourceType m durFn j.name j.listResult))
        (c.add (handleResourceType m durFn j.name j.listResult)) := rfl

lemma foldl_merge (m : Option (String → Bool)) (durFn : Row → String) :
    ∀ (js : List Job) (c : Counter),
      js.foldl (fun c j => c.add (handleResourceType m durFn j.name j.listResult)) c =
        Counter.merge c (runCycle m durFn js) := by
  intro js
  induction js with
  | nil => intro c; simp [runCycle, merge_zero]
  | cons j t ih =>
      intro c
      rw [runCycle_cons, ih]
      have h2 : runCycle m durFn (j :: t) =
          Counter.merge (zeroCounter.add (handleResourceType m durFn j.name j.listResult))
            (runCycle m durFn t) := by
        have h3 : runCycle m durFn (j :: t) =
            t.foldl (fun c j => c.add (handleResourceType m durFn j.name j.listResult))
              (zeroCounter.add (handleResourceType m durFn j.name j.listResult)) := rfl
        rw [h3, ih]
      rw [h2]
      refine counter_eq _ _ ?_ ?_ ?_ ?_ <;>
        simp [Counter.merge, Counter.add, zeroCounter, Nat.add_assoc, Bool.or_assoc]

lemma runCycle_append (m : Option (String → Bool)) (durFn : Row → String)
    (js1 js2 : List Job) :
    runCycle m durFn (js1 ++ js2) =
      Counter.merge (runCycle m durFn js1) (runCycle m durFn js2) := by
  unfold runCycle
  rw [List.foldl_append, foldl_merge]
  rfl

/-- The `RunAll` loop stops exactly after the first cycle whose `checkAgain`
verdict is false (while-forever off). -/
lemma runAllLoop_stops (again : Nat → Bool) :
    ∀ (n start fuel : Nat), (∀ i, i < n → again (start + i) = true) →
      again (start + n) = false → n < fuel →
      runAllLoop false again fuel start = some (start + n + 1) := by
  intro n
  induction n with
  | zero =>
      intro start fuel h1 h2 hf
      cases fuel with
      | zero => omega
      | succ f =>
          have h2' : again start = false := by simpa using h2
          simp [runAllLoop, runAgainDecision, h2']
  | succ n' ih =>
      intro start fuel h1 h2 hf
      cases fuel with
      | zero => omega
      | succ f =>
          have h0 : again start = true := by simpa using h1 0 (by omega)
          have step : runAllLoop false again (f + 1) start =
              runAllLoop false again f (start + 1) := by
            simp [runAllLoop, runAgainDecision, h0]
          rw [step]
          have h1' : ∀ i, i < n' → again (start + 1 + i) = true := by
            intro i hi
            have := h1 (i + 1) (by omega)
            rwa [show start + (i + 1) = start + 1 + i from by omega] at this
          have h2' : again (start + 1 + n') = false := by
            rwa [show start + (n' + 1) = start + 1 + n' from by omega] at h2
          have := ih (start + 1) f h1' h2' (by omega)
          rwa [show start + 1 + n' + 1 = start + (n' + 1) + 1 from by omega] at this

/-- Every formatted report line contains a non-newline character (it starts
with two spaces), so the pattern `.` matches it. -/
lemma dotMatch_mkOutLine (ns resource objName : String) (r : Row) (dur : String) :
    dotMatch (mkOutLine ns resource objName r dur) = true := by
  unfold dotMatch mkOutLine
  simp only [String.data_append, List.any_append]
  have h : ("  " : String).data.any (fun c => c != '\n') = true := by decide
  rw [h]
  simp

/-! ## Claim theorems -/

/-- C1: every condition entry whose type is in the always-skip set
(DisruptionAllowed, LoadBalancerAttachedToNetwork, NetworkAttached,
PodReadyToStartContainers) is suppressed by the classifier — the legacy
`handleCondition` leaves the row list unchanged (only the scan counter
moves) and the mode dispatcher reports `false` under every mode and every
config ruleset — regardless of the entry's status, reason and message; and
the four named types are indeed in the set. -/
theorem c1_alwaysSkip_never_reported :
    (∀ ct : String, conditionToSkip ct = true →
      (∀ (resource : String) (c : Cond) (counter : RTOutput) (rows : List Row),
          c.conditionType = ct →
          handleCondition resource c counter rows =
            (rows, { counter with checkedConditions := counter.checkedConditions + 1 })) ∧
      (∀ (mode : ConditionMode) (cfg : Config) (group resource : String) (c : Cond),
          c.conditionType = ct → classifyReport mode cfg group resource c = false)) ∧
    (conditionToSkip "DisruptionAllowed" = true ∧
      conditionToSkip "LoadBalancerAttachedToNetwork" = true ∧
      conditionToSkip "NetworkAttached" = true ∧
      conditionToSkip "PodReadyToStartContainers" = true) := by
  constructor
  · intro ct hct
    constructor
    · intro resource c counter rows hc
      rw [handleCondition_eq]
      have hrep : legacyReport resource c = false := by
        unfold legacyReport
        rw [hc, if_pos hct]
      rw [hrep]
      simp
    · intro mode cfg group resource c hc
      unfold classifyReport
      rw [hc, if_pos hct]
  · exact ⟨by decide, by decide, by decide, by decide⟩

/-- C1 witness: a concrete always-skip entry is suppressed by
`handleCondition` and by the config-mode dispatcher. -/
theorem c1_alwaysSkip_witness :
    conditionToSkip "NetworkAttached" = true ∧
    handleCondition "pods" ⟨"NetworkAttached", "True", "SomeReason", "msg", ""⟩
        zeroRTOutput [] =
      ([], { zeroRTOutput with checkedConditions := zeroRTOutput.checkedConditions + 1 }) ∧
    classifyReport ConditionMode.onlyNew ⟨[]⟩ "" "pods"
        ⟨"NetworkAttached", "False", "", "", ""⟩ = false := by
  refine ⟨by decide, ?_, ?_⟩
  · exact (c1_alwaysSkip_never_reported.1 "NetworkAttached" (by decide)).1 "pods"
      ⟨"NetworkAttached", "True", "SomeReason", "msg", ""⟩ zeroRTOutput [] rfl
  · exact (c1_alwaysSkip_never_reported.1 "NetworkAttached" (by decide)).2
      ConditionMode.onlyNew ⟨[]⟩ "" "pods" ⟨"NetworkAttached", "False", "", "", ""⟩ rfl

/-- C2: for every list of rules inserted with `AddRegex` and every
six-tuple, `shouldSkip` is true iff some inserted rule matches all six
fields (anchored wildcard match per field); in particular the rule
(apps, deployments, Progressing, True, *, *) makes the
`NewReplicaSetAvailable` tuple skip with status `True` and not with status
`False`. -/
theorem c2_rule_tree_roundtrip :
    (∀ (rules : List Rule) (g r ty s re m : String),
        (buildConfig rules).shouldSkip g r ty s re m = true ↔
          ∃ ru ∈ rules, ruleMatches ru g r ty s re m = true) ∧
    (buildConfig [⟨"apps", "deployments", "Progressing", "True", "*", "*"⟩]).shouldSkip
        "apps" "deployments" "Progressing" "True" "NewReplicaSetAvailable" "" = true ∧
    (buildConfig [⟨"apps", "deployments", "Progressing", "True", "*", "*"⟩]).shouldSkip
        "apps" "deployments" "Progressing" "False" "NewReplicaSetAvailable" "" = false := by
  refine ⟨?_, by decide, by decide⟩
  intro rules g r ty s re m
  rw [shouldSkip_buildConfig]
  simp [List.any_eq_true]

/-- C3: when the surviving rows contain exactly one Ready row, the printed
rows are exactly the non-Ready rows as soon as some other row shares the
Ready row's (status, reason, message) — so the specific line is printed
exactly as often as it survives and no Ready line is printed — and are all
the rows (Ready included) when no other row shares that payload. -/
theorem c3_ready_merge :
    ∀ (rows : List Row) (rd : Row), rows.filter isReadyRow = [rd] →
      ((∃ r ∈ rows, isReadyRow r = false ∧
          r.conditionMessage = rd.conditionMessage ∧
          r.conditionReason = rd.conditionReason ∧
          r.conditionStatus = rd.conditionStatus) →
        outputRows rows = rows.filter (fun r => !isReadyRow r) ∧
        (∀ s ∈ outputRows rows, isReadyRow s = false) ∧
        (∀ s : Row, isReadyRow s = false →
          (outputRows rows).count s = rows.count s)) ∧
      ((∀ r ∈ rows, isReadyRow r = true ∨
          ¬(r.conditionMessage = rd.conditionMessage ∧
            r.conditionReason = rd.conditionReason ∧
            r.conditionStatus = rd.conditionStatus)) →
        outputRows rows = rows) := by
  intro rows rd hfilter
  have hfind : rows.find? isReadyRow = some rd :=
    find?_of_filter_singleton isReadyRow rows rd hfilter
  constructor
  · intro hex
    have hskip : skipReadyCondition rows = true := by
      unfold skipReadyCondition findReady
      rw [hfind]
      rcases hex with ⟨r, hr, hnready, hmsg, hreason, hstatus⟩
      refine List.any_eq_true.mpr ⟨r, hr, ?_⟩
      simp [hnready, hmsg, hreason, hstatus]
    have hout : outputRows rows = rows.filter (fun r => !isReadyRow r) := by
      unfold outputRows
      rw [if_pos hskip]
    refine ⟨hout, ?_, ?_⟩
    · intro s hs
      rw [hout] at hs
      have := List.mem_filter.mp hs
      simpa using this.2
    · intro s hs
      rw [hout, count_filter_of_pos _ s (by simp [hs])]
  · intro hall
    have hskip : skipReadyCondition rows = false := by
      unfold skipReadyCondition findReady
      rw [hfind]
      rw [List.any_eq_false]
      intro r hr
      rcases hall r hr with h | h
      · simp [h]
      · simp only [Bool.and_eq_true, Bool.not_eq_true', beq_iff_eq]
        intro hcontra
        exact h ⟨hcontra.2.1, hcontra.2.2.1, hcontra.2.2.2⟩
    unfold outputRows
    rw [if_neg (by simp [hskip])]

/-- C3 witness: the spec's two-row example — Ready and a more specific row
with identical payload — prints exactly the specific row. -/
theorem c3_ready_merge_witness :
    outputRows [⟨"Ready", "False", "R", "M", ""⟩, ⟨"Specific", "False", "R", "M", ""⟩] =
      List.filter (fun r => !isReadyRow r)
        [⟨"Ready", "False", "R", "M", ""⟩, ⟨"Specific", "False", "R", "M", ""⟩] := by
  have h := (c3_ready_merge
      [⟨"Ready", "False", "R", "M", ""⟩, ⟨"Specific", "False", "R", "M", ""⟩]
      ⟨"Ready", "False", "R", "M", ""⟩ (by decide)).1
  exact (h ⟨⟨"Specific", "False", "R", "M", ""⟩, by decide, by decide, rfl, rfl, rfl⟩).1

/-- C4: the enumerator's slash filter checks only the FIRST character of
the resource name, so a subresource name such as `pod/logs` (slash in the
middle) is NOT dropped: its job is counted as a checked resource type,
contradicting the claim that any name containing `/` is dropped — while its
own comment says `Skip subresources like pod/logs`.  The deny-list half of
the claim does hold (`bindings` is dropped). -/
theorem c4_slash_filter_first_char_only :
    containsSlash "pod/logs" = false ∧
    "pod/logs".data.contains '/' = true ∧
    containsSlash "/status" = true ∧
    (∀ (m : Option (String → Bool)) (durFn : Row → String),
        handleResourceType m durFn "pod/logs" (Except.error "forbidden") =
          { zeroRTOutput with checkedResourceTypes := 1 }) ∧
    (∀ (m : Option (String → Bool)) (durFn : Row → String)
        (lr : Except String (List KObject)),
        handleResourceType m durFn "bindings" lr = zeroRTOutput) := by
  refine ⟨by decide, by decide, by decide, ?_, ?_⟩
  · intro m durFn
    unfold handleResourceType
    rw [if_neg (by decide), if_neg (by decide)]
  · intro m durFn lr
    unfold handleResourceType
    rw [if_neg (by decide), if_pos (by decide)]

/-- C5: the terminal-state rule.  For the types Ready/ContainersReady/
InfrastructureReady with a table reason and status False it fires (the
claim's positive examples hold), but for type `MachinesReady` it can never
fire: `conditionDone` overwrites the TYPE with the `@`-split of the REASON,
so (MachinesReady, Deleted, False) — which the claim says is suppressed —
is not suppressed and is reported end to end by the legacy chain. -/
theorem c5_machinesReady_terminal_rule_dead :
    conditionDone "MachinesReady" "False" "Deleted" = false ∧
    conditionDone "MachinesReady" "False" "InstanceTerminated" = false ∧
    conditionDone "MachinesReady" "False" "PodCompleted" = false ∧
    conditionDone "Ready" "False" "PodCompleted" = true ∧
    conditionDone "ContainersReady" "False" "InstanceTerminated" = true ∧
    conditionDone "Ready" "True" "PodCompleted" = false ∧
    legacyReport "machinesets" ⟨"MachinesReady", "False", "Deleted", "", ""⟩ = true := by
  exact ⟨by decide, by decide, by decide, by decide, by decide, by decide, by decide⟩

/-- C6: under the legacy classifier an entry of type
`FrequentContainerRestart` with status False is suppressed by the
`Frequent…Restart` pattern rule for every resource, whatever the reason and
message; `ContainerRestart` has no negative meaning for any resource, and a
False `ContainerRestart` entry is reported whenever no ignore-line regex
matches its formatted line. -/
theorem c6_frequent_restart_pattern :
    (∀ (resource reason msg ltt : String) (counter : RTOutput) (rows : List Row),
        handleCondition resource ⟨"FrequentContainerRestart", "False", reason, msg, ltt⟩
            counter rows =
          (rows, { counter with checkedConditions := counter.checkedConditions + 1 })) ∧
    (∀ resource : String,
        conditionTypeHasNegativeMeaning resource "ContainerRestart" = false) ∧
    (∀ (resource reason msg ltt : String) (counter : RTOutput) (rows : List Row),
        ignoreLineMatches
            (mkConditionLine resource ⟨"ContainerRestart", "False", reason, msg, ltt⟩) =
          false →
        handleCondition resource ⟨"ContainerRestart", "False", reason, msg, ltt⟩
            counter rows =
          (rows ++ [mkRow ⟨"ContainerRestart", "False", reason, msg, ltt⟩],
            { counter with checkedConditions := counter.checkedConditions + 1 })) := by
  have hTF : (("False" : String) == "True") = false := by decide
  have hFF : (("False" : String) == "False") = true := by decide
  refine ⟨?_, negativeMeaning_containerRestart, ?_⟩
  · intro resource reason msg ltt counter rows
    rw [handleCondition_eq]
    have hrep : legacyReport resource
        ⟨"FrequentContainerRestart", "False", reason, msg, ltt⟩ = false := by
      unfold legacyReport
      have hsk : conditionToSkip "FrequentContainerRestart" = false := by decide
      rw [if_neg (by simp [hsk])]
      rw [if_neg (by simp [hTF])]
      rw [if_pos (by simp [hFF, negativeMeaning_frequentContainerRestart resource])]
    rw [hrep]
    simp
  · intro resource reason msg ltt counter rows hig
    rw [handleCondition_eq]
    have hrep : legacyReport resource
        ⟨"ContainerRestart", "False", reason, msg, ltt⟩ = true := by
      unfold legacyReport
      have hsk : conditionToSkip "ContainerRestart" = false := by decide
      rw [if_neg (by simp [hsk])]
      rw [if_neg (by simp [hTF])]
      rw [if_neg (by simp [hFF, negativeMeaning_containerRestart resource])]
      rw [if_neg (by simp [hig])]
      rw [if_neg (by simp [conditionDone_containerRestart])]
    rw [hrep]
    simp

/-- C6 witness: the concrete pair of entries on resource `pods` with empty
reason and message: `FrequentContainerRestart=False` suppressed,
`ContainerRestart=False` reported. -/
theorem c6_frequent_restart_witness :
    handleCondition "pods" ⟨"FrequentContainerRestart", "False", "", "", ""⟩
        zeroRTOutput [] =
      ([], { zeroRTOutput with checkedConditions := zeroRTOutput.checkedConditions + 1 }) ∧
    ignoreLineMatches
        (mkConditionLine "pods" ⟨"ContainerRestart", "False", "", "", ""⟩) = false ∧
    handleCondition "pods" ⟨"ContainerRestart", "False", "", "", ""⟩ zeroRTOutput [] =
      ([] ++ [mkRow ⟨"ContainerRestart", "False", "", "", ""⟩],
        { zeroRTOutput with checkedConditions := zeroRTOutput.checkedConditions + 1 }) :=
  ⟨c6_frequent_restart_pattern.1 "pods" "" "" "" zeroRTOutput [],
   by decide,
   c6_frequent_restart_pattern.2.2 "pods" "" "" "" zeroRTOutput [] (by decide)⟩

/-- C7: classification is a pure function of the six-tuple.  The whole
effect of `handleCondition` is determined by (resource, type, status,
reason, message) through the verdict `legacyReport` — the same inputs give
the same verdict, the only state touched is the condition counter (plus the
reported row itself) — and the config lookup `shouldSkip` is determined by
the inserted rules and the six-tuple alone. -/
theorem c7_classification_pure :
    (∀ (resource : String) (c : Cond) (counter : RTOutput) (rows : List Row),
        handleCondition resource c counter rows =
          ((if legacyReport resource c then rows ++ [mkRow c] else rows),
            { counter with checkedConditions := counter.checkedConditions + 1 })) ∧
    (∀ (rules : List Rule) (g r ty s re m : String),
        (buildConfig rules).shouldSkip g r ty s re m =
          rules.any (fun ru => ruleMatches ru g r ty s re m)) :=
  ⟨handleCondition_eq, shouldSkip_buildConfig⟩

/-- C8: in While mode (while-forever off) the poll loop runs the cycles in
order, continues after every cycle whose reported lines contain a match of
the user pattern, and stops right after the first cycle with no matching
line, having executed exactly the first n+1 cycles; with the pattern `.`
every formatted report line matches, so zero matches means zero reported
lines. -/
theorem c8_while_mode_poll :
    (∀ (m : String → Bool) (cycles : Nat → List String) (n : Nat),
        (∀ i, i < n → checkAgainOfLines m (cycles i) = true) →
        checkAgainOfLines m (cycles n) = false →
        ∀ fuel : Nat, n < fuel →
          runAllLoop false (fun i => checkAgainOfLines m (cycles i)) fuel 0 =
            some (n + 1)) ∧
    (∀ (m : String → Bool) (cycles : Nat → List String) (i fuel : Nat),
        checkAgainOfLines m (cycles i) = true →
        runAllLoop false (fun j => checkAgainOfLines m (cycles j)) (fuel + 1) i =
          runAllLoop false (fun j => checkAgainOfLines m (cycles j)) fuel (i + 1)) ∧
    (∀ (ns resource objName : String) (r : Row) (dur : String),
        dotMatch (mkOutLine ns resource objName r dur) = true) ∧
    (∀ lines : List String, (∀ l ∈ lines, dotMatch l = true) →
        (checkAgainOfLines dotMatch lines = false ↔ lines = [])) := by
  refine ⟨?_, ?_, dotMatch_mkOutLine, ?_⟩
  · intro m cycles n h1 h2 fuel hf
    have := runAllLoop_stops (fun i => checkAgainOfLines m (cycles i)) n 0 fuel
      (by intro i hi; simpa using h1 i hi) (by simpa using h2) hf
    simpa using this
  · intro m cycles i fuel h
    simp [runAllLoop, runAgainDecision, h]
  · intro lines hall
    constructor
    · intro hfalse
      cases lines with
      | nil => rfl
      | cons l t =>
          have hl : dotMatch l = true := hall l (by simp)
          simp [checkAgainOfLines, hl] at hfalse
    · intro he
      subst he
      rfl

/-- C8 witness: one cycle with a report line matching `.`, then a clean
cycle — the loop stops after exactly two cycles. -/
theorem c8_while_mode_witness :
    runAllLoop false
      (fun i => checkAgainOfLines dotMatch (if i = 0 then ["  line"] else [])) 3 0 =
      some 2 := by
  have h := c8_while_mode_poll.1 dotMatch (fun i => if i = 0 then ["  line"] else []) 1
    (by
      intro i hi
      have hi0 : i = 0 := by omega
      subst hi0
      decide)
    (by decide) 3 (by omega)
  simpa using h

/-- C9: a failing list call is contained in its job: the worker returns the
job's partial counts (the type counted, nothing else, no re-check flag)
without any other effect, and the cycle counter of any job sequence around
the failing job is the merge of the other jobs' counters with that single
unit — the remaining resource types are still processed and the cycle
still produces its summary counters. -/
theorem c9_list_error_contained :
    (∀ (m : Option (String → Bool)) (durFn : Row → String) (name e : String),
        containsSlash name = false → resourcesToSkip.contains name = false →
        handleResourceType m durFn name (Except.error e) =
          { zeroRTOutput with checkedResourceTypes := 1 }) ∧
    (∀ (m : Option (String → Bool)) (durFn : Row → String) (pre post : List Job)
        (name e : String),
        containsSlash name = false → resourcesToSkip.contains name = false →
        runCycle m durFn (pre ++ ⟨name, Except.error e⟩ :: post) =
          Counter.merge (runCycle m durFn pre)
            (Counter.merge ⟨0, 0, 1, false⟩ (runCycle m durFn post))) := by
  have hjob : ∀ (m : Option (String → Bool)) (durFn : Row → String) (name e : String),
      containsSlash name = false → resourcesToSkip.contains name = false →
      handleResourceType m durFn name (Except.error e) =
        { zeroRTOutput with checkedResourceTypes := 1 } := by
    intro m durFn name e h1 h2
    unfold handleResourceType
    rw [if_neg (by simp [h1]),
      if_neg (by intro hc; rw [h2] at hc; exact absurd hc (by decide))]
  refine ⟨hjob, ?_⟩
  intro m durFn pre post name e h1 h2
  rw [runCycle_append]
  congr 1
  have h3 : runCycle m durFn (⟨name, Except.error e⟩ :: post) =
      Counter.merge
        (zeroCounter.add (handleResourceType m durFn name (Except.error e)))
        (runCycle m durFn post) := by
    have h4 : runCycle m durFn (⟨name, Except.error e⟩ :: post) =
        post.foldl (fun c j => c.add (handleResourceType m durFn j.name j.listResult))
          (zeroCounter.add (handleResourceType m durFn name (Except.error e))) := rfl
    rw [h4, foldl_merge]
  rw [h3, hjob m durFn name e h1 h2]
  congr 1

/-- C9 witness: a single-job cycle whose list call failed: the job yields
exactly the one-type unit and the cycle merge is the stated combination. -/
theorem c9_list_error_witness :
    handleResourceType none (fun _ => "") "pods" (Except.error "forbidden") =
        { zeroRTOutput with checkedResourceTypes := 1 } ∧
    runCycle none (fun _ => "") ([] ++ ⟨"pods", Except.error "forbidden"⟩ :: []) =
      Counter.merge (runCycle none (fun _ => "") [])
        (Counter.merge ⟨0, 0, 1, false⟩ (runCycle none (fun _ => "") [])) :=
  ⟨c9_list_error_contained.1 none (fun _ => "") "pods" "forbidden" (by decide) (by decide),
   c9_list_error_contained.2 none (fun _ => "") [] [] "pods" "forbidden"
     (by decide) (by decide)⟩

/-- C10 counterexample: the claimed equivalence — compiled matcher iff
"value splits as the pattern with each `*` replaced by SOME substring" —
fails at pattern `*` and value `"a\nb"`: the unrestricted wildcard reading
accepts (the whole value as the substring), but the compiled `^.*$` is
built without the `s` flag, its `.` cannot match a newline, and the
matcher rejects the value. -/
theorem c10_wildcard_newline_counterexample :
    ¬(globMatchS "*" "a\nb" = true ↔ GlobSpec "*".data "a\nb".data) := by
  intro h
  have hspec : GlobSpec "*".data "a\nb".data := globSpec_star_whole "a\nb".data
  have htrue := h.mpr hspec
  have hfalse : globMatchS "*" "a\nb" = false := by decide
  rw [hfalse] at htrue
  exact Bool.noConfusion htrue

/-- C10 (amended): the matcher compiled from a rule field accepts a value
exactly when the value splits as the pattern with every `*` replaced by
some (possibly empty) substring CONTAINING NO NEWLINE — the compiled
`^...$` regex has no `s` flag, so the `.*` produced from a `*` cannot
cross a line break — and every other character of the pattern (regex
metacharacters such as `.` and `(` included) matching only itself, the
match anchored to the whole string. -/
theorem c10_compiled_pattern_wildcard_semantics :
    (∀ p v : String, globMatchS p v = true ↔ GlobSpecNoNl p.data v.data) ∧
    globMatchS "a.c" "abc" = false ∧
    globMatchS "a.c" "a.c" = true ∧
    globMatchS "f(o*ar" "f(oobar" = true ∧
    globMatchS "*" "" = true ∧
    globMatchS "*" "a\nb" = false := by
  refine ⟨?_, by decide, by decide, by decide, by decide, by decide⟩
  intro p v
  exact globMatch_iff_globSpecNoNl p.data v.data

end CheckConditions
